import Mathlib

/-!
Verification of the cbzconcat repository's chapter-extraction engine,
natural comparator, sanitizer and merge pipeline.

Go strings are modelled as `List Char` (Go's `regexp` package operates on
runes); the byte-level routine `stringNatCmpLess` works on the UTF-8
encoding of that rune list, exactly as Go indexes `s[i]`.
-/

namespace Cbz

/-- A Go string, seen as its sequence of runes. -/
abbrev GoStr := List Char

/-- Coerce a Lean string literal to the model's string type. -/
def strL (s : String) : GoStr := s.toList

/-- Digit class `\d` of Go's regexp: an ASCII decimal digit rune. -/
def isDigitCh (c : Char) : Bool := '0' ≤ c && c ≤ '9'

/-- Case-insensitive comparison of one rune against a literal ASCII letter,
given in both cases.  Mirrors `(?i)` folding for the letters appearing in
the two patterns of `getChapter` (none of which has a non-ASCII fold). -/
def chEq (c lo hi : Char) : Bool := c = lo || c = hi

/-- The greedy tail `\d+(?:\.\d+)*` of both regexes in `getChapter`
(src/unnamed/part_000:70,73): from a position whose first rune is a digit,
take the maximal digit run, then maximal `.digits` groups. -/
def digitsDotted : GoStr → GoStr
  | [] => []
  | c :: r =>
    if isDigitCh c then c :: digitsDotted r
    else if c = '.' then
      match r with
      | [] => []
      | d :: r2 => if isDigitCh d then '.' :: d :: digitsDotted r2 else []
    else []

/-- The separator-and-number part `[^0-9]{0,2}(\d+(?:\.\d+)*)` of the
primary regex, tried with the greedy preference of a leftmost-first
engine: two non-digit runes first, then one, then none; returns the
capture on success. -/
def trySep (l : GoStr) : Option GoStr :=
  match l with
  | a :: b :: c :: r =>
    if !isDigitCh a && !isDigitCh b && isDigitCh c then some (digitsDotted (c :: r))
    else if !isDigitCh a && isDigitCh b then some (digitsDotted (b :: c :: r))
    else if isDigitCh a then some (digitsDotted (a :: b :: c :: r))
    else none
  | [a, b] =>
    if !isDigitCh a && isDigitCh b then some (digitsDotted [b])
    else if isDigitCh a then some (digitsDotted [a, b])
    else none
  | [a] => if isDigitCh a then some (digitsDotted [a]) else none
  | [] => none

/-- The `apter` alternative of the primary regex after `ch` and `ap`
have matched: the remaining letters `ter`, then separator and number. -/
def altApterTail : GoStr → Option GoStr
  | t :: e :: rr :: r3 =>
    if chEq t 't' 'T' && chEq e 'e' 'E' && chEq rr 'r' 'R' then trySep r3 else none
  | _ => none

/-- The `ap` and `apter` alternatives of the primary regex after `ch` has
matched, tried in that order. -/
def altApTail : GoStr → Option GoStr
  | a :: p :: r2 =>
    if chEq a 'a' 'A' && chEq p 'p' 'P' then
      match trySep r2 with
      | some cap => some cap
      | none => altApterTail r2
    else none
  | _ => none

/-- One anchored attempt of the primary regex
`(?i)ch(?:|ap|apter)[^0-9]{0,2}(\d+(?:\.\d+)*)`
(src/unnamed/part_000:70) at the start of `s`, with the alternation tried
in written order (empty suffix, then `ap`, then `apter`). -/
def matchPrimaryAt : GoStr → Option GoStr
  | c :: h :: rest =>
    if chEq c 'c' 'C' && chEq h 'h' 'H' then
      match trySep rest with
      | some cap => some cap
      | none => altApTail rest
    else none
  | _ => none

/-- Leftmost search of the primary regex: the first start position (in rune
order) admitting a full match wins, as in `regexp.FindStringSubmatch`. -/
def scanPrimary : GoStr → Option GoStr
  | [] => none
  | c :: t =>
    match matchPrimaryAt (c :: t) with
    | some cap => some cap
    | none => scanPrimary t

/-- Leftmost search of the fallback regex `(?i)(\d{3,}(?:\.\d+)*)`
(src/unnamed/part_000:73): the first position carrying at least three
consecutive digits; the capture is greedy from there. -/
def scanFallback : GoStr → Option GoStr
  | a :: b :: c :: r =>
    if isDigitCh a && isDigitCh b && isDigitCh c then some (digitsDotted (a :: b :: c :: r))
    else scanFallback (b :: c :: r)
  | _ => none

/-- Model of `strings.Split(result, ".")` of src/unnamed/part_000:87. -/
def splitOnDot : GoStr → List GoStr
  | [] => [[]]
  | c :: t =>
    let r := splitOnDot t
    if c = '.' then [] :: r
    else (c :: r.headI) :: r.tail

/-- Model of `strings.Join(parts, ".")` of src/unnamed/part_000:92. -/
def joinDot : List GoStr → GoStr
  | [] => []
  | [p] => p
  | p :: q :: rest => p ++ '.' :: joinDot (q :: rest)

/-- The zero-trimming block of `getChapter` (src/unnamed/part_000:86-93):
split on dots, strip leading zeros of the first segment only, replacing an
all-zero first segment by "0", and join back. -/
def normalizeChapter (raw : GoStr) : GoStr :=
  match splitOnDot raw with
  | [] => []
  | p :: rest =>
    let t := p.dropWhile (· = '0')
    joinDot ((if t.isEmpty then ['0'] else t) :: rest)

/-- The raw capture `result` of `getChapter` before normalization
(src/unnamed/part_000:75-83): primary regex first, fallback second,
empty string when neither matches. -/
def getChapterRaw (name : GoStr) : GoStr :=
  match scanPrimary name with
  | some cap => cap
  | none =>
    match scanFallback name with
    | some cap => cap
    | none => []

/-- Model of `getChapter` of src/unnamed/part_000:66-96. -/
def getChapter (name : GoStr) : GoStr :=
  let result := getChapterRaw name
  if result.isEmpty then [] else normalizeChapter result

example : getChapter (strL "Ch.0001") = strL "1" := by decide
example : getChapter (strL "Ch.0000") = strL "0" := by decide
example : getChapter (strL "Ch 0001.5.5.5") = strL "1.5.5.5" := by decide
example : getChapter (strL "My Manga 001") = strL "1" := by decide
example : getChapter (strL "My Manga 12") = strL "" := by decide
example : getChapter (strL "") = strL "" := by decide
example : getChapter (strL "Punch 2") = strL "2" := by decide
example : getChapter (strL "chapter #0001.5.5.5") = strL "1.5.5.5" := by decide
example : getChapter (strL "Ch.1.05") = strL "1.05" := by decide

/-- Numeric value of a digit string. -/
def digitsToNat (l : GoStr) : Nat := l.foldl (fun n c => n * 10 + (c.toNat - 48)) 0

/-- Go's `strconv.Atoi` with its error ignored, as in `compareChaptersLess`
(src/unnamed/part_000:121-122): the value of a digit string clamped to
`MaxInt64` on range error, `0` on a syntax error. -/
def atoiGo (l : GoStr) : Int :=
  if !l.isEmpty && l.all isDigitCh then min (digitsToNat l : Int) (2 ^ 63 - 1) else 0

/-- The part-by-part loop of `compareChaptersLess`
(src/unnamed/part_000:120-129): compare `Atoi` values at each index up to
the shorter vector, then shorter-comes-first on the lengths. -/
def compareParts : List GoStr → List GoStr → Bool
  | p :: ps, q :: qs =>
    if atoiGo p ≠ atoiGo q then decide (atoiGo p < atoiGo q)
    else compareParts ps qs
  | ps, qs => decide (ps.length < qs.length)

/-- Model of `isDigit` of src/unnamed/part_000:203-205, on a byte. -/
def isDigit (b : Nat) : Bool := 48 ≤ b && b ≤ 57

/-- Two's-complement wraparound of Go's 64-bit `int` arithmetic. -/
def wrap64 (x : Int) : Int := (x + 2 ^ 63) % 2 ^ 64 - 2 ^ 63

/-- Model of `extractNumber` of src/unnamed/part_000:209-219: the accumulated
(wrapping) integer value of the leading digit run, returned here with the
remaining bytes instead of the consumed length. -/
def extractNumber (s : List Nat) : Int × List Nat :=
  ((s.takeWhile isDigit).foldl (fun n d => wrap64 (n * 10 + ((d : Int) - 48))) 0,
   s.dropWhile isDigit)

/-- The scanning loop of `stringNatCmpLess` (src/unnamed/part_000:175-196),
on byte lists, with explicit fuel so that it evaluates in the kernel.
`none` means the loop ran off the end of one string without deciding. -/
def natCoreF : Nat → List Nat → List Nat → Option Bool
  | 0, _, _ => none
  | _ + 1, [], _ => none
  | _ + 1, _ :: _, [] => none
  | f + 1, x :: xs, y :: ys =>
    if isDigit x && isDigit y then
      if (extractNumber (x :: xs)).1 ≠ (extractNumber (y :: ys)).1 then
        some (decide ((extractNumber (x :: xs)).1 < (extractNumber (y :: ys)).1))
      else natCoreF f (extractNumber (x :: xs)).2 (extractNumber (y :: ys)).2
    else if x ≠ y then some (decide (x < y))
    else natCoreF f xs ys

/-- UTF-8 encoding of one rune, as Go lays out string bytes. -/
def utf8EncodeChar (c : Char) : List Nat :=
  let v := c.toNat
  if v < 0x80 then [v]
  else if v < 0x800 then [0xC0 + v / 0x40, 0x80 + v % 0x40]
  else if v < 0x10000 then [0xE0 + v / 0x1000, 0x80 + v / 0x40 % 0x40, 0x80 + v % 0x40]
  else [0xF0 + v / 0x40000, 0x80 + v / 0x1000 % 0x40, 0x80 + v / 0x40 % 0x40, 0x80 + v % 0x40]

/-- The bytes of a Go string. -/
def utf8Bytes : GoStr → List Nat
  | [] => []
  | c :: t => utf8EncodeChar c ++ utf8Bytes t

/-- Model of `stringNatCmpLess` of src/unnamed/part_000:172-200: scan both byte
strings; when the loop exits without deciding, compare the original byte
lengths. -/
def stringNatCmpLess (s1 s2 : GoStr) : Bool :=
  (natCoreF ((utf8Bytes s1).length + (utf8Bytes s2).length) (utf8Bytes s1)
      (utf8Bytes s2)).getD
    (decide ((utf8Bytes s1).length < (utf8Bytes s2).length))

/-- Model of `compareChaptersLess` of src/unnamed/part_000:100-130. -/
def compareChaptersLess (name1 name2 : GoStr) : Bool :=
  if (getChapter name1).isEmpty && (getChapter name2).isEmpty then
    stringNatCmpLess name1 name2
  else if (getChapter name1).isEmpty then false
  else if (getChapter name2).isEmpty then true
  else compareParts (splitOnDot (getChapter name1)) (splitOnDot (getChapter name2))

example : compareChaptersLess (strL "Ch001") (strL "") = true := by decide
example : compareChaptersLess (strL "") (strL "Ch001") = false := by decide
example : compareChaptersLess (strL "Ch001") (strL "Ch001.0") = true := by decide
example : compareChaptersLess (strL "Ch001.0") (strL "Ch001") = false := by decide
example : compareChaptersLess (strL "0000000014") (strL "015.5.5.5.5.5.5.5.5.5.5") = true := by
  decide
example : compareChaptersLess (strL "5.5y") (strL "05.05") = true := by decide
example : compareChaptersLess (strL "05.05") (strL "05.05xz") = true := by decide
example : compareChaptersLess (strL "5.5y") (strL "05.05xz") = false := by decide

theorem isEmpty_false_of_ne {l : GoStr} (h : l ≠ []) : l.isEmpty = false := by
  cases l with
  | nil => exact absurd rfl h
  | cons c t => rfl

theorem length_dropWhile_le_nat (p : Nat → Bool) (l : List Nat) :
    (l.dropWhile p).length ≤ l.length := by
  induction l with
  | nil => simp
  | cons x xs ih =>
    rw [List.dropWhile_cons]
    by_cases h : p x
    · simp only [h, if_true]
      exact ih.trans (Nat.le_succ _)
    · simp [h]

theorem natCoreF_self : ∀ (f : Nat) (l : List Nat), 2 * l.length ≤ f → natCoreF f l l = none := by
  intro f
  induction f with
  | zero => intro l _; rfl
  | succ f ih =>
    intro l h
    match l with
    | [] => rfl
    | x :: xs =>
      by_cases hd : isDigit x
      · have hlen : (xs.dropWhile isDigit).length ≤ xs.length := length_dropWhile_le_nat _ _
        simp only [List.length_cons] at h
        simp [natCoreF, hd, extractNumber]
        exact ih _ (by omega)
      · simp only [List.length_cons] at h
        simp [natCoreF, hd]
        exact ih xs (by omega)

theorem compareParts_self : ∀ ps, compareParts ps ps = false := by
  intro ps
  induction ps with
  | nil => simp [compareParts]
  | cons p t ih => simpa [compareParts] using ih

/-- C3: the natural comparator is irreflexive: for every string `a`,
`compareChaptersLess a a = false`.  Both the chapter-vector branch and the
byte-level natural-sort fallback refuse `a < a`. -/
theorem claim_C3_less_irrefl (a : GoStr) : compareChaptersLess a a = false := by
  unfold compareChaptersLess
  by_cases h : getChapter a = []
  · simp only [h, List.isEmpty_nil, Bool.and_self, if_true]
    unfold stringNatCmpLess
    rw [natCoreF_self _ _ (by omega)]
    simp
  · simp [isEmpty_false_of_ne h, compareParts_self]

theorem compareParts_trans :
    ∀ p1 p2 p3, compareParts p1 p2 = true → compareParts p2 p3 = true →
      compareParts p1 p3 = true := by
  intro p1
  induction p1 with
  | nil =>
    intro p2 p3 h12 h23
    match p2, p3 with
    | [], _ => simp [compareParts] at h12
    | _ :: _, [] => simp [compareParts] at h23
    | _ :: _, _ :: _ => simp [compareParts]
  | cons a t1 ih =>
    intro p2 p3 h12 h23
    match p2, p3 with
    | [], _ => simp [compareParts] at h12
    | _ :: _, [] => simp [compareParts] at h23
    | b :: t2, c :: t3 =>
      simp only [compareParts, ne_eq] at h12 h23 ⊢
      by_cases hab : atoiGo a = atoiGo b <;> by_cases hbc : atoiGo b = atoiGo c
      · simp only [hab, hbc, not_true_eq_false, if_false] at h12 h23 ⊢
        exact ih t2 t3 h12 h23
      · simp only [hab, not_true_eq_false, if_false] at h12
        simp [hbc] at h23
        have hac : atoiGo a ≠ atoiGo c := by omega
        simp [hab, hbc]
        omega
      · simp [hab] at h12
        have hac : atoiGo a ≠ atoiGo c := by omega
        simp [hac]
        omega
      · simp [hab] at h12
        simp [hbc] at h23
        have hac : atoiGo a ≠ atoiGo c := by omega
        simp [hac]
        omega

/-- C4 counterexample: `compareChaptersLess` is not transitive.  None of
"5.5y", "05.05", "05.05xz" carries a chapter identifier (their digit runs
are shorter than three), so all three comparisons fall through to the
byte-level natural sort, whose original-length tiebreak produces a cycle
of the two `true` results with the final `false`. -/
theorem claim_C4_counterexample :
    compareChaptersLess (strL "5.5y") (strL "05.05") = true ∧
    compareChaptersLess (strL "05.05") (strL "05.05xz") = true ∧
    compareChaptersLess (strL "5.5y") (strL "05.05xz") = false := by
  refine ⟨by decide, by decide, by decide⟩

/-- C4 amended: transitivity does hold whenever at least one of the three
strings has an extractable chapter identifier; only the branch where all
three lack one (the `stringNatCmpLess` fallback) is intransitive. -/
theorem claim_C4_less_trans_of_chapter (a b c : GoStr)
    (h : getChapter a ≠ [] ∨ getChapter b ≠ [] ∨ getChapter c ≠ [])
    (hab : compareChaptersLess a b = true) (hbc : compareChaptersLess b c = true) :
    compareChaptersLess a c = true := by
  unfold compareChaptersLess at hab hbc ⊢
  by_cases ea : getChapter a = [] <;> by_cases eb : getChapter b = [] <;>
    by_cases ec : getChapter c = []
  · exact absurd h (by simp [ea, eb, ec])
  · simp [ea, eb, isEmpty_false_of_ne ec] at hbc
  · simp [ea, isEmpty_false_of_ne eb] at hab
  · simp [ea, isEmpty_false_of_ne eb] at hab
  · simp [isEmpty_false_of_ne ea, eb, ec]
  · simp [eb, isEmpty_false_of_ne ec] at hbc
  · simp [isEmpty_false_of_ne ea, ec]
  · simp only [isEmpty_false_of_ne ea, isEmpty_false_of_ne eb, isEmpty_false_of_ne ec,
      Bool.and_self, Bool.false_and, Bool.and_false] at hab hbc ⊢
    simp at hab hbc ⊢
    exact compareParts_trans _ _ _ hab hbc

/-- Witness for the amended C4 at concrete chaptered inputs. -/
theorem claim_C4_less_trans_witness :
    compareChaptersLess (strL "Ch.1") (strL "Ch.3") = true :=
  claim_C4_less_trans_of_chapter (strL "Ch.1") (strL "Ch.2") (strL "Ch.3")
    (Or.inl (by decide)) (by decide) (by decide)

/-- C6: a string with an extractable chapter identifier sorts before one
without, and never after it (src/unnamed/part_000:108-113). -/
theorem claim_C6_no_chapter_sorts_last (a b : GoStr)
    (ha : getChapter a ≠ []) (hb : getChapter b = []) :
    compareChaptersLess a b = true ∧ compareChaptersLess b a = false := by
  unfold compareChaptersLess
  simp [isEmpty_false_of_ne ha, hb]

/-- Witness for C6 at the spec's own example pair. -/
theorem claim_C6_witness :
    compareChaptersLess (strL "Ch001") (strL "") = true ∧
    compareChaptersLess (strL "") (strL "Ch001") = false :=
  claim_C6_no_chapter_sorts_last (strL "Ch001") (strL "") (by decide) (by decide)

/-- The normalization as the specification words it, for comparison with
the code: trim leading zeros from EVERY dot-segment, an all-zero segment
becoming "0". -/
def specNormalizeEverySegment (raw : GoStr) : GoStr :=
  joinDot ((splitOnDot raw).map (fun p =>
    if (p.dropWhile (· = '0')).isEmpty then ['0'] else p.dropWhile (· = '0')))

/-- C5 counterexample: the code trims leading zeros of the FIRST segment
only (src/unnamed/part_000:88), not of every segment: on "Ch.1.05" the
captured text is "1.05" and the code returns "1.05", while the claimed
every-segment normalization would give "1.5". -/
theorem claim_C5_counterexample :
    getChapterRaw (strL "Ch.1.05") = strL "1.05" ∧
    getChapter (strL "Ch.1.05") = strL "1.05" ∧
    specNormalizeEverySegment (getChapterRaw (strL "Ch.1.05")) = strL "1.5" ∧
    getChapter (strL "Ch.1.05") ≠ specNormalizeEverySegment (getChapterRaw (strL "Ch.1.05")) :=
  ⟨by decide, by decide, by decide, by decide⟩

/-- C5 amended: whenever extraction matches, the canonical identifier is
the captured numeric text with leading zeros trimmed from the first
segment only (an all-zero first segment becoming "0"); the spec's three
examples hold. -/
theorem claim_C5_normalization (s : GoStr) (h : getChapterRaw s ≠ []) :
    getChapter s = normalizeChapter (getChapterRaw s) ∧
    getChapter (strL "Ch.0001") = strL "1" ∧
    getChapter (strL "Ch.0000") = strL "0" ∧
    getChapter (strL "Ch 0001.5.5.5") = strL "1.5.5.5" := by
  refine ⟨?_, by decide, by decide, by decide⟩
  unfold getChapter
  simp [isEmpty_false_of_ne h]

/-- Witness for C5 at a concrete matching input. -/
theorem claim_C5_witness :
    getChapter (strL "Ch.0015") = normalizeChapter (getChapterRaw (strL "Ch.0015")) :=
  (claim_C5_normalization (strL "Ch.0015") (by decide)).1

/-- C7: when the primary pattern finds nothing, the raw capture is
whatever the fallback (first run of three or more digits, with dotted
continuations) finds; runs of one or two digits are rejected, as the
spec's examples show. -/
theorem claim_C7_fallback (s : GoStr) (h : scanPrimary s = none) :
    getChapterRaw s = (scanFallback s).getD [] ∧
    getChapter (strL "My Manga 001") = strL "1" ∧
    getChapter (strL "My Manga 12") = [] ∧
    getChapter (strL "") = [] := by
  refine ⟨?_, by decide, by decide, by decide⟩
  unfold getChapterRaw
  rw [h]
  cases scanFallback s <;> simp

/-- Witness for C7 at a concrete primary-free input. -/
theorem claim_C7_witness :
    getChapterRaw (strL "My Manga 001") = (scanFallback (strL "My Manga 001")).getD [] :=
  (claim_C7_fallback (strL "My Manga 001") (by decide)).1

theorem digitsDotted_ne_nil {d : Char} (hd : isDigitCh d = true) (r : GoStr) :
    digitsDotted (d :: r) ≠ [] := by
  cases r <;> simp [digitsDotted, hd]

theorem trySep_some_ne_nil : ∀ {l cap : GoStr}, trySep l = some cap → cap ≠ [] := by
  intro l cap h
  match l with
  | [] => exact absurd h (by simp [trySep])
  | [a] =>
    by_cases h1 : isDigitCh a
    · simp [trySep, h1] at h
      exact h ▸ digitsDotted_ne_nil h1 _
    · simp [trySep, h1] at h
  | [a, b] =>
    by_cases h1 : isDigitCh a <;> by_cases h2 : isDigitCh b
    · simp [trySep, h1, h2] at h
      exact h ▸ digitsDotted_ne_nil h1 _
    · simp [trySep, h1, h2] at h
      exact h ▸ digitsDotted_ne_nil h1 _
    · simp [trySep, h1, h2] at h
      exact h ▸ digitsDotted_ne_nil h2 _
    · simp [trySep, h1, h2] at h
  | a :: b :: c :: r =>
    by_cases h1 : isDigitCh a <;> by_cases h2 : isDigitCh b <;> by_cases h3 : isDigitCh c
    all_goals simp [trySep, h1, h2, h3] at h
    all_goals first
      | exact h ▸ digitsDotted_ne_nil h1 _
      | exact h ▸ digitsDotted_ne_nil h2 _
      | exact h ▸ digitsDotted_ne_nil h3 _

theorem altApterTail_some_ne_nil : ∀ {s cap : GoStr},
    altApterTail s = some cap → cap ≠ [] := by
  intro s cap h
  match s with
  | [] => exact absurd h (by simp [altApterTail])
  | [_] => exact absurd h (by simp [altApterTail])
  | [_, _] => exact absurd h (by simp [altApterTail])
  | t :: e :: rr :: r3 =>
    by_cases hc : (chEq t 't' 'T' && chEq e 'e' 'E' && chEq rr 'r' 'R') = true
    · simp only [altApterTail] at h
      rw [if_pos hc] at h
      exact trySep_some_ne_nil h
    · simp only [altApterTail] at h
      rw [if_neg hc] at h
      exact absurd h (by simp)

theorem altApTail_some_ne_nil : ∀ {s cap : GoStr}, altApTail s = some cap → cap ≠ [] := by
  intro s cap h
  match s with
  | [] => exact absurd h (by simp [altApTail])
  | [_] => exact absurd h (by simp [altApTail])
  | a :: p :: r2 =>
    by_cases hc : (chEq a 'a' 'A' && chEq p 'p' 'P') = true
    · simp only [altApTail] at h
      rw [if_pos hc] at h
      cases ht : trySep r2 with
      | some cap2 =>
        rw [ht] at h
        injection h with h2
        exact h2 ▸ trySep_some_ne_nil ht
      | none =>
        rw [ht] at h
        exact altApterTail_some_ne_nil h
    · simp only [altApTail] at h
      rw [if_neg hc] at h
      exact absurd h (by simp)

theorem matchPrimaryAt_some_ne_nil : ∀ {s cap : GoStr},
    matchPrimaryAt s = some cap → cap ≠ [] := by
  intro s cap h
  match s with
  | [] => exact absurd h (by simp [matchPrimaryAt])
  | [_] => exact absurd h (by simp [matchPrimaryAt])
  | c :: hh :: rest =>
    by_cases hc : (chEq c 'c' 'C' && chEq hh 'h' 'H') = true
    · simp only [matchPrimaryAt] at h
      rw [if_pos hc] at h
      cases ht : trySep rest with
      | some cap2 =>
        rw [ht] at h
        injection h with h2
        exact h2 ▸ trySep_some_ne_nil ht
      | none =>
        rw [ht] at h
        exact altApTail_some_ne_nil h
    · simp only [matchPrimaryAt] at h
      rw [if_neg hc] at h
      exact absurd h (by simp)

theorem scanPrimary_some_ne_nil : ∀ {s cap : GoStr}, scanPrimary s = some cap → cap ≠ [] := by
  intro s
  induction s with
  | nil => intro cap h; exact absurd h (by simp [scanPrimary])
  | cons c t ih =>
    intro cap h
    unfold scanPrimary at h
    cases hm : matchPrimaryAt (c :: t) with
    | some cap2 =>
      rw [hm] at h
      injection h with h2
      exact h2 ▸ matchPrimaryAt_some_ne_nil hm
    | none =>
      rw [hm] at h
      exact ih h

theorem scanFallback_some_ne_nil : ∀ {s cap : GoStr}, scanFallback s = some cap → cap ≠ [] := by
  intro s
  induction s with
  | nil => intro cap h; exact absurd h (by simp [scanFallback])
  | cons a t ih =>
    intro cap h
    match t with
    | [] => exact absurd h (by simp [scanFallback])
    | [b] => exact absurd h (by simp [scanFallback])
    | b :: c :: r =>
      by_cases hd : isDigitCh a && isDigitCh b && isDigitCh c
      · simp only [scanFallback, hd, if_true] at h
        injection h with h2
        have h1 : isDigitCh a = true := by
          rcases Bool.and_eq_true_iff.mp hd with ⟨h', _⟩
          exact (Bool.and_eq_true_iff.mp h').1
        exact h2 ▸ digitsDotted_ne_nil h1 _
      · simp only [scanFallback, hd, if_false] at h
        exact ih h

theorem splitOnDot_ne_nil : ∀ l : GoStr, splitOnDot l ≠ [] := by
  intro l
  cases l with
  | nil => simp [splitOnDot]
  | cons c t =>
    simp only [splitOnDot]
    split <;> simp

theorem joinDot_ne_nil {p : GoStr} (hp : p ≠ []) (rest : List GoStr) :
    joinDot (p :: rest) ≠ [] := by
  cases rest with
  | nil => simpa [joinDot] using hp
  | cons q t => simp [joinDot]

theorem normalizeChapter_ne_nil (raw : GoStr) : normalizeChapter raw ≠ [] := by
  unfold normalizeChapter
  cases hs : splitOnDot raw with
  | nil => exact absurd hs (splitOnDot_ne_nil raw)
  | cons p rest =>
    show joinDot ((if (p.dropWhile (· = '0')).isEmpty then ['0']
      else p.dropWhile (· = '0')) :: rest) ≠ []
    by_cases he : (p.dropWhile (· = '0')).isEmpty = true
    · rw [if_pos he]
      exact joinDot_ne_nil (by simp) rest
    · rw [if_neg he]
      exact joinDot_ne_nil (fun hnil => he (by rw [hnil]; rfl)) rest

theorem getChapter_ne_nil_of_raw {s : GoStr} (h : getChapterRaw s ≠ []) :
    getChapter s ≠ [] := by
  unfold getChapter
  simp [isEmpty_false_of_ne h, normalizeChapter_ne_nil]

theorem trySep_isSome_of_shape (sep : GoStr) (d : Char) (rest : GoStr)
    (hlen : sep.length ≤ 2) (hnd : ∀ c ∈ sep, isDigitCh c = false)
    (hd : isDigitCh d = true) : ∃ cap, trySep (sep ++ d :: rest) = some cap := by
  match sep with
  | [] =>
    match rest with
    | [] => exact ⟨digitsDotted [d], by simp [trySep, hd]⟩
    | [b] => exact ⟨digitsDotted [d, b], by simp [trySep, hd]⟩
    | b :: c :: r => exact ⟨digitsDotted (d :: b :: c :: r), by simp [trySep, hd]⟩
  | [a] =>
    have ha : isDigitCh a = false := hnd a (by simp)
    match rest with
    | [] => exact ⟨digitsDotted [d], by simp [trySep, hd, ha]⟩
    | c :: r => exact ⟨digitsDotted (d :: c :: r), by simp [trySep, hd, ha]⟩
  | [a, b] =>
    have ha : isDigitCh a = false := hnd a (by simp)
    have hb : isDigitCh b = false := hnd b (by simp)
    exact ⟨digitsDotted (d :: rest), by simp [trySep, hd, ha, hb]⟩
  | a :: b :: c :: t => simp at hlen

theorem matchPrimaryAt_ch (sep : GoStr) (d : Char) (rest : GoStr)
    (hlen : sep.length ≤ 2) (hnd : ∀ c ∈ sep, isDigitCh c = false)
    (hd : isDigitCh d = true) :
    ∃ cap, matchPrimaryAt ('c' :: 'h' :: (sep ++ d :: rest)) = some cap := by
  obtain ⟨cap, hc⟩ := trySep_isSome_of_shape sep d rest hlen hnd hd
  refine ⟨cap, ?_⟩
  simp only [matchPrimaryAt]
  rw [if_pos (by decide : (chEq 'c' 'c' 'C' && chEq 'h' 'h' 'H') = true), hc]

theorem scanPrimary_isSome_of_matchAt :
    ∀ (pre s : GoStr), (∃ cap, matchPrimaryAt s = some cap) →
      ∃ cap, scanPrimary (pre ++ s) = some cap := by
  intro pre
  induction pre with
  | nil =>
    intro s hex
    obtain ⟨cap, h⟩ := hex
    cases s with
    | nil => exact absurd h (by simp [matchPrimaryAt])
    | cons c t =>
      refine ⟨cap, ?_⟩
      rw [List.nil_append]
      unfold scanPrimary
      rw [h]
  | cons x xs ih =>
    intro s hex
    rw [List.cons_append]
    cases hm : matchPrimaryAt (x :: (xs ++ s)) with
    | some cap2 => exact ⟨cap2, by unfold scanPrimary; rw [hm]⟩
    | none =>
      obtain ⟨cap, hs⟩ := ih s hex
      exact ⟨cap, by unfold scanPrimary; rw [hm]; exact hs⟩

/-- C10: the primary pattern needs no word boundary before the "ch"
marker: any occurrence of "ch", followed by at most two non-digit runes
and then a digit, yields an identifier (even one of fewer than three
digits); in particular "Punch 2" yields "2". -/
theorem claim_C10_no_word_boundary :
    (∀ (pre sep rest : GoStr) (d : Char), sep.length ≤ 2 →
        (∀ c ∈ sep, isDigitCh c = false) → isDigitCh d = true →
        getChapter (pre ++ 'c' :: 'h' :: (sep ++ d :: rest)) ≠ []) ∧
    getChapter (strL "Punch 2") = strL "2" := by
  refine ⟨?_, by decide⟩
  intro pre sep rest d hlen hnd hd
  obtain ⟨cap, hm⟩ := matchPrimaryAt_ch sep d rest hlen hnd hd
  obtain ⟨cap2, hs⟩ := scanPrimary_isSome_of_matchAt pre _ ⟨cap, hm⟩
  apply getChapter_ne_nil_of_raw
  unfold getChapterRaw
  rw [hs]
  exact scanPrimary_some_ne_nil hs

/-- Witness for C10 on the decomposition of "Punch 2". -/
theorem claim_C10_witness :
    getChapter (strL "Pun" ++ 'c' :: 'h' :: ([' '] ++ '2' :: [])) ≠ [] :=
  claim_C10_no_word_boundary.1 (strL "Pun") [' '] [] '2' (by decide) (by decide) (by decide)

/-- The two `strings.ReplaceAll` calls of `sanitizeFilename`
(src/unnamed/part_000:134-135): spaces and dots become underscores. -/
def replSpaceDot (c : Char) : Char := if c = ' ' || c = '.' then '_' else c

/-- Membership in the reserved-character class of the regex
`[<>:"/\\|?*]+` (src/unnamed/part_000:138). -/
def isIllegal (c : Char) : Bool :=
  c = '<' || c = '>' || c = ':' || c = '"' || c = '/' || c = '\\' || c = '|' || c = '?' ||
    c = '*'

/-- Model of `illegal.ReplaceAllString(name, "_")` (src/unnamed/part_000:139):
each maximal run of reserved characters collapses to one underscore; the
flag records whether the previous rune was inside such a run. -/
def collapseIllegalAux (prevIll : Bool) : GoStr → GoStr
  | [] => []
  | c :: t =>
    if isIllegal c then
      if prevIll then collapseIllegalAux true t else '_' :: collapseIllegalAux true t
    else c :: collapseIllegalAux false t

def collapseIllegal (l : GoStr) : GoStr := collapseIllegalAux false l

/-- The cutset `"._ "` of the final `strings.Trim` (src/unnamed/part_000:142). -/
def isCut (c : Char) : Bool := c = '.' || c = '_' || c = ' '

/-- Model of `strings.Trim(name, "._ ")`: drop cutset runes from both ends. -/
def trimGo (l : GoStr) : GoStr := ((l.dropWhile isCut).reverse.dropWhile isCut).reverse

/-- Model of `sanitizeFilename` of src/unnamed/part_000:132-148. -/
def sanitizeFilename (name : GoStr) : GoStr :=
  if trimGo (collapseIllegal (name.map replSpaceDot)) = [] then strL "untitled"
  else trimGo (collapseIllegal (name.map replSpaceDot))

/-- Modelled from the spec: `unidecode.Unidecode` is the go-unidecode
library, external to this repository; the spec specifies the Sanitizer
only as an interface that must "transliterate non-ASCII characters to an
ASCII approximation".  The model keeps ASCII runes unchanged and maps
each non-ASCII rune to its ASCII approximation, here the empty one. -/
def unidecode : GoStr → GoStr
  | [] => []
  | c :: t => (if c.toNat < 128 then [c] else []) ++ unidecode t

/-- Model of `sanitizeFilenameASCII` of src/unnamed/part_000:150-152. -/
def sanitizeFilenameASCII (name : GoStr) : GoStr := sanitizeFilename (unidecode name)

example : sanitizeFilename (strL "a<>b") = strL "a_b" := by decide
example : sanitizeFilename (strL "..a b..") = strL "a_b" := by decide
example : sanitizeFilenameASCII (strL "Foo Ch.1-2") = strL "Foo_Ch_1-2" := by decide
example : sanitizeFilenameASCII (strL "") = strL "untitled" := by decide

theorem length_dropWhile_le {α : Type} (p : α → Bool) (l : List α) :
    (l.dropWhile p).length ≤ l.length := by
  induction l with
  | nil => simp
  | cons x xs ih =>
    rw [List.dropWhile_cons]
    by_cases h : p x
    · simp only [h, if_true]
      exact ih.trans (Nat.le_succ _)
    · simp [h]

theorem dropWhile_idem {α : Type} (p : α → Bool) (l : List α) :
    (l.dropWhile p).dropWhile p = l.dropWhile p := by
  induction l with
  | nil => simp
  | cons x xs ih =>
    rw [List.dropWhile_cons]
    by_cases h : p x
    · simpa [h] using ih
    · simp [List.dropWhile_cons, h]

theorem mem_of_mem_dropWhile {α : Type} {p : α → Bool} {l : List α} {c : α}
    (h : c ∈ l.dropWhile p) : c ∈ l := by
  induction l with
  | nil => simp at h
  | cons x xs ih =>
    rw [List.dropWhile_cons] at h
    by_cases hx : p x
    · simp only [hx, if_true] at h
      exact List.mem_cons_of_mem _ (ih h)
    · simpa [hx] using h

theorem mem_of_mem_trimGo {l : GoStr} {c : Char} (h : c ∈ trimGo l) : c ∈ l := by
  unfold trimGo at h
  rw [List.mem_reverse] at h
  have h2 := mem_of_mem_dropWhile h
  rw [List.mem_reverse] at h2
  exact mem_of_mem_dropWhile h2

theorem dropWhile_eq_self_of_append {α : Type} (p : α → Bool) (w t : List α)
    (h : (w ++ t).dropWhile p = w ++ t) : w.dropWhile p = w := by
  cases w with
  | nil => simp
  | cons c u =>
    rw [List.cons_append, List.dropWhile_cons] at h
    by_cases hc : p c
    · rw [if_pos hc] at h
      have hlen := length_dropWhile_le p (u ++ t)
      rw [h] at hlen
      simp at hlen
    · rw [List.dropWhile_cons, if_neg hc]

theorem dropWhile_eq_self_of_rev_trim {p : Char → Bool} {m : GoStr}
    (hm : m.dropWhile p = m) :
    ((m.reverse.dropWhile p).reverse).dropWhile p = (m.reverse.dropWhile p).reverse := by
  have hsplit := List.takeWhile_append_dropWhile (p := p) (l := m.reverse)
  have hmeq : m = (m.reverse.dropWhile p).reverse ++ (m.reverse.takeWhile p).reverse := by
    conv_lhs => rw [← List.reverse_reverse m, ← hsplit]
    rw [List.reverse_append]
  rw [hmeq] at hm
  exact dropWhile_eq_self_of_append p _ _ hm

theorem trimGo_idem (l : GoStr) : trimGo (trimGo l) = trimGo l := by
  have hP : (l.dropWhile isCut).dropWhile isCut = l.dropWhile isCut := dropWhile_idem _ _
  have h1 : (trimGo l).dropWhile isCut = trimGo l := dropWhile_eq_self_of_rev_trim hP
  unfold trimGo
  rw [show ((l.dropWhile isCut).reverse.dropWhile isCut).reverse = trimGo l from rfl]
  rw [h1]
  rw [show (trimGo l).reverse = (l.dropWhile isCut).reverse.dropWhile isCut by
    unfold trimGo; rw [List.reverse_reverse]]
  rw [dropWhile_idem]
  rfl

theorem map_id_of_mem {α : Type} (f : α → α) (l : List α) (h : ∀ c ∈ l, f c = c) :
    l.map f = l := by
  induction l with
  | nil => rfl
  | cons x t ih => simp [h x (by simp), ih (fun c hc => h c (by simp [hc]))]

theorem replSpaceDot_eq_self {c : Char} (h1 : c ≠ ' ') (h2 : c ≠ '.') : replSpaceDot c = c := by
  unfold replSpaceDot
  rw [if_neg]
  simp [h1, h2]

theorem mem_map_repl_facts {l : GoStr} {c : Char} (h : c ∈ l.map replSpaceDot) :
    c ≠ ' ' ∧ c ≠ '.' := by
  obtain ⟨a, _, rfl⟩ := List.mem_map.mp h
  unfold replSpaceDot
  by_cases ha : (a = ' ' || a = '.') = true
  · rw [if_pos ha]
    exact ⟨by decide, by decide⟩
  · rw [if_neg ha]
    simp at ha
    exact ha

theorem collapseIllegalAux_mem : ∀ (b : Bool) (l : GoStr) (c : Char),
    c ∈ collapseIllegalAux b l → isIllegal c = false ∧ (c = '_' ∨ c ∈ l) := by
  intro b l
  induction l generalizing b with
  | nil => intro c h; simp [collapseIllegalAux] at h
  | cons x t ih =>
    intro c h
    unfold collapseIllegalAux at h
    by_cases hx : isIllegal x = true
    · rw [if_pos hx] at h
      cases b with
      | true =>
        obtain ⟨h1, h2⟩ := ih true c h
        exact ⟨h1, h2.imp_right (List.mem_cons_of_mem x)⟩
      | false =>
        rcases List.mem_cons.mp h with h_ | h2
        · subst h_
          exact ⟨by decide, Or.inl rfl⟩
        · obtain ⟨h1, h2'⟩ := ih true c h2
          exact ⟨h1, h2'.imp_right (List.mem_cons_of_mem x)⟩
    · rw [if_neg hx] at h
      rcases List.mem_cons.mp h with h_ | h2
      · subst h_
        exact ⟨Bool.not_eq_true _ ▸ hx, Or.inr (List.mem_cons_self _ _)⟩
      · obtain ⟨h1, h2'⟩ := ih false c h2
        exact ⟨h1, h2'.imp_right (List.mem_cons_of_mem x)⟩

theorem collapseIllegalAux_eq_self : ∀ (b : Bool) (l : GoStr),
    (∀ c ∈ l, isIllegal c = false) → collapseIllegalAux b l = l := by
  intro b l
  induction l generalizing b with
  | nil => intro _; rfl
  | cons x t ih =>
    intro h
    unfold collapseIllegalAux
    rw [if_neg (by simp [h x (by simp)])]
    rw [ih false (fun c hc => h c (by simp [hc]))]

theorem sanitizeFilename_mem_facts {x : GoStr} {c : Char}
    (h : c ∈ trimGo (collapseIllegal (x.map replSpaceDot))) :
    c ≠ ' ' ∧ c ≠ '.' ∧ isIllegal c = false := by
  have h1 := mem_of_mem_trimGo h
  obtain ⟨hill, hor⟩ := collapseIllegalAux_mem false _ c h1
  rcases hor with h_ | hmem
  · subst h_
    exact ⟨by decide, by decide, hill⟩
  · have hf := mem_map_repl_facts hmem
    exact ⟨hf.1, hf.2, hill⟩

theorem sanitizeFilename_idem (x : GoStr) :
    sanitizeFilename (sanitizeFilename x) = sanitizeFilename x := by
  by_cases hy : trimGo (collapseIllegal (x.map replSpaceDot)) = []
  · have hx : sanitizeFilename x = strL "untitled" := by
      unfold sanitizeFilename
      rw [if_pos hy]
    rw [hx]
    decide
  · have hx : sanitizeFilename x = trimGo (collapseIllegal (x.map replSpaceDot)) := by
      unfold sanitizeFilename
      rw [if_neg hy]
    rw [hx]
    have hmap : (trimGo (collapseIllegal (x.map replSpaceDot))).map replSpaceDot =
        trimGo (collapseIllegal (x.map replSpaceDot)) :=
      map_id_of_mem _ _ (fun c hc =>
        replSpaceDot_eq_self (sanitizeFilename_mem_facts hc).1
          (sanitizeFilename_mem_facts hc).2.1)
    unfold sanitizeFilename
    rw [hmap]
    rw [show collapseIllegal (trimGo (collapseIllegal (List.map replSpaceDot x))) =
        trimGo (collapseIllegal (List.map replSpaceDot x)) from
      collapseIllegalAux_eq_self false _ (fun c hc => (sanitizeFilename_mem_facts hc).2.2)]
    rw [trimGo_idem]
    rw [if_neg hy]

theorem unidecode_ascii_mem : ∀ {l : GoStr} {c : Char}, c ∈ unidecode l → c.toNat < 128 := by
  intro l
  induction l with
  | nil => intro c h; simp [unidecode] at h
  | cons x t ih =>
    intro c h
    unfold unidecode at h
    by_cases hx : x.toNat < 128
    · rw [if_pos hx] at h
      rcases List.mem_append.mp h with h1 | h2
      · rw [List.mem_singleton] at h1
        subst h1
        exact hx
      · exact ih h2
    · rw [if_neg hx, List.nil_append] at h
      exact ih h

theorem unidecode_eq_self {l : GoStr} (h : ∀ c ∈ l, c.toNat < 128) : unidecode l = l := by
  induction l with
  | nil => rfl
  | cons x t ih =>
    unfold unidecode
    rw [if_pos (h x (by simp)), List.singleton_append]
    rw [ih (fun c hc => h c (by simp [hc]))]

theorem sanitizeFilename_ascii {x : GoStr} (hx : ∀ c ∈ x, c.toNat < 128) :
    ∀ c ∈ sanitizeFilename x, c.toNat < 128 := by
  intro c hc
  unfold sanitizeFilename at hc
  by_cases hy : trimGo (collapseIllegal (x.map replSpaceDot)) = []
  · rw [if_pos hy] at hc
    exact (by decide : ∀ c ∈ strL "untitled", c.toNat < 128) c hc
  · rw [if_neg hy] at hc
    have h1 := mem_of_mem_trimGo hc
    rcases (collapseIllegalAux_mem false _ c h1).2 with h_ | hmem
    · subst h_
      decide
    · obtain ⟨a, ha, rfl⟩ := List.mem_map.mp hmem
      unfold replSpaceDot
      by_cases hsp : (a = ' ' || a = '.') = true
      · rw [if_pos hsp]
        decide
      · rw [if_neg hsp]
        exact hx a ha

/-- C9: the sanitizer is idempotent, and the empty title yields the fixed
placeholder "untitled".  The transliteration step keeps ASCII runes
unchanged, and a sanitized name contains no spaces, dots or reserved
characters and is already trimmed, so a second pass changes nothing. -/
theorem claim_C9_sanitize_idempotent :
    (∀ x : GoStr, sanitizeFilenameASCII (sanitizeFilenameASCII x) = sanitizeFilenameASCII x) ∧
    sanitizeFilenameASCII [] = strL "untitled" := by
  refine ⟨?_, by decide⟩
  intro x
  unfold sanitizeFilenameASCII
  rw [unidecode_eq_self (sanitizeFilename_ascii (fun c hc => unidecode_ascii_mem hc))]
  exact sanitizeFilename_idem _

/-- Model of `filepath.Ext` on a zip entry name: scan backwards, stop at a path
separator, return the suffix from the last dot. -/
def extGoAux : GoStr → GoStr → GoStr
  | [], _ => []
  | c :: cs, acc =>
    if c = '/' then []
    else if c = '.' then c :: acc
    else extGoAux cs (c :: acc)

def extGo (name : GoStr) : GoStr := extGoAux name.reverse []

/-- Model of `strings.ToLower` on one rune.  ASCII letters are lowered; the two
non-ASCII runes whose Unicode lowercase IS an ASCII letter (dotted
capital I and the Kelvin sign) are mapped as Go maps them, so the
comparisons against the ASCII extension set below agree with Go on every
input; other runes are left unchanged, which those comparisons cannot
observe. -/
def toLowerGo (c : Char) : Char :=
  if 'A' ≤ c && c ≤ 'Z' then Char.ofNat (c.toNat + 32)
  else if c.toNat = 304 then 'i'
  else if c.toNat = 8490 then 'k'
  else c

def toLowerStr (l : GoStr) : GoStr := l.map toLowerGo

/-- The recognized-image test of the copy loop (src/unnamed/part_001:124-125). -/
def isImageEntry (name : GoStr) : Bool :=
  decide (toLowerStr (extGo name) = strL ".jpg" ∨ toLowerStr (extGo name) = strL ".jpeg" ∨
    toLowerStr (extGo name) = strL ".png" ∨ toLowerStr (extGo name) = strL ".gif")

def natDigitsAux : Nat → Nat → List Char
  | 0, _ => []
  | _ + 1, 0 => []
  | f + 1, n => natDigitsAux f (n / 10) ++ [Char.ofNat (48 + n % 10)]

def natRepr (n : Nat) : GoStr := if n = 0 then ['0'] else natDigitsAux (n + 1) n

/-- Model of `fmt.Sprintf("%05d", n)`: decimal form left-padded with zeros to a
minimum width of five. -/
def pad5 (n : Nat) : GoStr := List.replicate (5 - (natRepr n).length) '0' ++ natRepr n

/-- The name given to the copied entry `pageIndex` with the (lowercased)
extension of its source entry (src/unnamed/part_001:127). -/
def outName (idx : Nat) (entry : GoStr) : GoStr := pad5 idx ++ toLowerStr (extGo entry)

/-- The embedded descriptor record (`ComicInfo` of src/unnamed/part_000:18-23). -/
structure ComicInfoM where
  title : GoStr
  series : GoStr
  pageCount : Int
deriving DecidableEq

/-- One input archive: its path, its entry names in the container's own
internal order, and its parsed descriptor when one exists. -/
structure SourceArchive where
  path : GoStr
  entries : List GoStr
  info : Option ComicInfoM
deriving DecidableEq

/-- The merge result: output file name, copied pages as (output entry
name, source entry) pairs in emission order, and the synthesized
descriptor. -/
structure MergeOut where
  outputFile : GoStr
  pages : List (GoStr × GoStr)
  info : ComicInfoM
deriving DecidableEq

/-- The inner copy loop over one archive's entries
(src/unnamed/part_001:122-133): image entries are emitted under the
running `pageIndex`, which the function also returns. -/
def runSrc : Nat → List GoStr → List (GoStr × GoStr) × Nat
  | idx, [] => ([], idx)
  | idx, e :: rest =>
    if isImageEntry e then
      ((outName idx e, e) :: (runSrc (idx + 1) rest).1, (runSrc (idx + 1) rest).2)
    else runSrc idx rest

/-- The outer copy loop over all archives (src/unnamed/part_001:117-135). -/
def runSources : Nat → List (List GoStr) → List (GoStr × GoStr) × Nat
  | idx, [] => ([], idx)
  | idx, es :: rest =>
    ((runSrc idx es).1 ++ (runSources (runSrc idx es).2 rest).1,
     (runSources (runSrc idx es).2 rest).2)

/-- Model of `cmdConcat` of src/unnamed/part_001:16-155 from the point where the
discovered CBZ list is in hand, on the sorted source list: refuse fewer
than two sources before any output is created, read the two boundary
descriptors (an absent one is the `readXmlFromZip` failure), synthesize
title and sanitized output name, stream-copy the image entries with
sequential names, and write the output descriptor with the final page
count. -/
def cmdConcat (srcs : List SourceArchive) : Except GoStr MergeOut :=
  if srcs.length = 0 then .error (strL "No CBZ files found")
  else if srcs.length = 1 then
    .error (strL "Only one CBZ file found - no concatenation needed")
  else
    match srcs.head?.bind (fun s => s.info), srcs.getLast?.bind (fun s => s.info) with
    | some firstInfo, some lastInfo =>
      .ok
        { outputFile :=
            sanitizeFilenameASCII (firstInfo.series ++ strL " Ch." ++
              getChapter firstInfo.title ++ strL "-" ++ getChapter lastInfo.title) ++
              strL ".cbz"
          pages := (runSources 1 (srcs.map fun s => s.entries)).1
          info :=
            { title := firstInfo.series ++ strL " Ch." ++ getChapter firstInfo.title ++
                strL "-" ++ getChapter lastInfo.title
              series := firstInfo.series
              pageCount := ((runSources 1 (srcs.map fun s => s.entries)).2 : Int) - 1 } }
    | _, _ => .error (strL "no XMLs found")

/-- The recognized-extension entries of the sources, concatenated in
source order with each source's own internal entry order kept. -/
def imagesOfLists : List (List GoStr) → List GoStr
  | [] => []
  | es :: rest => es.filter isImageEntry ++ imagesOfLists rest

def imagesOf (srcs : List SourceArchive) : List GoStr :=
  imagesOfLists (srcs.map fun s => s.entries)

/-- Sequential page naming as the claim describes it: a zero-padded index
starting at `i` and incremented once per copied entry. -/
def specNumberFrom : Nat → List GoStr → List (GoStr × GoStr)
  | _, [] => []
  | i, e :: rest => (outName i e, e) :: specNumberFrom (i + 1) rest

theorem runSrc_spec : ∀ (es : List GoStr) (idx : Nat),
    runSrc idx es = (specNumberFrom idx (es.filter isImageEntry),
      idx + (es.filter isImageEntry).length) := by
  intro es
  induction es with
  | nil => intro idx; simp [runSrc, specNumberFrom]
  | cons e rest ih =>
    intro idx
    by_cases he : isImageEntry e
    · rw [show runSrc idx (e :: rest) =
          ((outName idx e, e) :: (runSrc (idx + 1) rest).1, (runSrc (idx + 1) rest).2) from by
        simp [runSrc, he]]
      rw [ih]
      simp [List.filter_cons, he, specNumberFrom]
      omega
    · rw [show runSrc idx (e :: rest) = runSrc idx rest from by simp [runSrc, he]]
      rw [ih]
      simp [List.filter_cons, he]

theorem specNumberFrom_append : ∀ (l1 l2 : List GoStr) (i : Nat),
    specNumberFrom i (l1 ++ l2) = specNumberFrom i l1 ++ specNumberFrom (i + l1.length) l2 := by
  intro l1
  induction l1 with
  | nil => intro l2 i; simp [specNumberFrom]
  | cons e t ih =>
    intro l2 i
    rw [List.cons_append]
    show (outName i e, e) :: specNumberFrom (i + 1) (t ++ l2) = _
    rw [ih]
    have harith : i + 1 + t.length = i + (t.length + 1) := by omega
    simp [specNumberFrom, harith]

theorem runSources_spec : ∀ (ls : List (List GoStr)) (idx : Nat),
    runSources idx ls = (specNumberFrom idx (imagesOfLists ls),
      idx + (imagesOfLists ls).length) := by
  intro ls
  induction ls with
  | nil => intro idx; simp [runSources, imagesOfLists, specNumberFrom]
  | cons es rest ih =>
    intro idx
    show ((runSrc idx es).1 ++ (runSources (runSrc idx es).2 rest).1,
      (runSources (runSrc idx es).2 rest).2) = _
    rw [runSrc_spec, ih]
    simp only [imagesOfLists, specNumberFrom_append, List.length_append, Nat.add_assoc]

theorem specNumberFrom_map_snd : ∀ (l : List GoStr) (i : Nat),
    (specNumberFrom i l).map Prod.snd = l := by
  intro l
  induction l with
  | nil => intro i; rfl
  | cons e t ih => intro i; simp [specNumberFrom, ih]

/-- C1: for every successful merge, the pages of the output are exactly
the recognized-extension entries of the sources in concatenated internal
order, named by a zero-padded index starting at 1 and incremented once
per copied entry, and the output descriptor's PageCount is the number of
entries copied. -/
theorem claim_C1_merge_output (srcs : List SourceArchive) (out : MergeOut)
    (h : cmdConcat srcs = Except.ok out) :
    out.pages = specNumberFrom 1 (imagesOf srcs) ∧
    out.pages.map Prod.snd = imagesOf srcs ∧
    out.info.pageCount = (imagesOf srcs).length := by
  unfold cmdConcat at h
  by_cases h0 : srcs.length = 0
  · rw [if_pos h0] at h
    exact absurd h (by simp)
  rw [if_neg h0] at h
  by_cases h1 : srcs.length = 1
  · rw [if_pos h1] at h
    exact absurd h (by simp)
  rw [if_neg h1] at h
  cases hf : srcs.head?.bind (fun s => s.info) with
  | none =>
    rw [hf] at h
    cases hl : srcs.getLast?.bind (fun s => s.info) <;> rw [hl] at h <;>
      exact absurd h (by simp)
  | some fi =>
    rw [hf] at h
    cases hl : srcs.getLast?.bind (fun s => s.info) with
    | none =>
      rw [hl] at h
      exact absurd h (by simp)
    | some li =>
      rw [hl] at h
      injection h with h2
      subst h2
      refine ⟨?_, ?_, ?_⟩
      · show (runSources 1 (srcs.map fun s => s.entries)).1 = specNumberFrom 1 (imagesOf srcs)
        unfold imagesOf
        rw [runSources_spec]
      · show ((runSources 1 (srcs.map fun s => s.entries)).1).map Prod.snd = imagesOf srcs
        unfold imagesOf
        rw [runSources_spec]
        exact specNumberFrom_map_snd _ _
      · show ((runSources 1 (srcs.map fun s => s.entries)).2 : Int) - 1 =
          ((imagesOf srcs).length : Int)
        unfold imagesOf
        rw [runSources_spec]
        push_cast
        omega

def srcsW : List SourceArchive :=
  [⟨strL "a.cbz", [strL "01.jpg", strL "ComicInfo.xml", strL "02.PNG"],
      some ⟨strL "Foo Ch.1", strL "Foo", 5⟩⟩,
   ⟨strL "b.cbz", [strL "x.gif", strL "y.txt"], some ⟨strL "Foo Ch.2", strL "Foo", 3⟩⟩]

def outW : MergeOut :=
  { outputFile := strL "Foo_Ch_1-2.cbz"
    pages := [(strL "00001.jpg", strL "01.jpg"), (strL "00002.png", strL "02.PNG"),
      (strL "00003.gif", strL "x.gif")]
    info := ⟨strL "Foo Ch.1-2", strL "Foo", 3⟩ }

/-- Witness for C1 on a concrete two-source merge. -/
theorem claim_C1_merge_witness :
    outW.pages = specNumberFrom 1 (imagesOf srcsW) ∧
    outW.pages.map Prod.snd = imagesOf srcsW ∧
    outW.info.pageCount = (imagesOf srcsW).length :=
  claim_C1_merge_output srcsW outW rfl

/-- C8: with zero or one qualifying sources, the merge refuses with the
user-facing message before any output container is created
(src/unnamed/part_001:45-53 precede the `os.Create` at line 106). -/
theorem claim_C8_refuse_few_sources (srcs : List SourceArchive) (h : srcs.length ≤ 1) :
    cmdConcat srcs = Except.error
      (if srcs.length = 0 then strL "No CBZ files found"
       else strL "Only one CBZ file found - no concatenation needed") := by
  unfold cmdConcat
  by_cases h0 : srcs.length = 0
  · rw [if_pos h0, if_pos h0]
  · have h1 : srcs.length = 1 := by omega
    rw [if_neg h0, if_pos h1, if_neg h0]

/-- Witness for C8: one source archive is refused. -/
theorem claim_C8_witness :
    cmdConcat [⟨strL "a.cbz", [strL "01.jpg"], some ⟨strL "Foo Ch.1", strL "Foo", 1⟩⟩] =
      Except.error (strL "Only one CBZ file found - no concatenation needed") :=
  claim_C8_refuse_few_sources _ (by decide)

end Cbz
